import Mathlib

/-!
Verification of the filmstrip (screenshot-thumbnails) audit of
`lighthouse-core/audits/screenshot-thumbnails.js`.

The JavaScript is shallowly embedded as follows.

* JavaScript numbers are modelled by `JNum`: an exact rational together
  with the three non-finite values `Infinity`, `-Infinity` and `NaN`.
  The arithmetic operations implement the IEEE / ECMAScript rules for the
  non-finite values exactly; finite arithmetic is exact rational
  arithmetic (double-precision rounding is not modelled).
* `Uint8Array` is modelled by `List ℕ`: reads out of range give `none`
  (JS `undefined`), writes out of range are dropped, and storing an
  out-of-range read coerces `undefined` to `0`, as `Uint8Array` does.
* The JPEG encoder (`jpeg-js`) is external to the audited file and is
  modelled as an opaque function parameter `encode : ImageData → String`
  producing the base64 payload of `jpeg.encode(imageData, 90).data`.
* Thrown exceptions are modelled by an error flag threaded through the
  bucket loop (`BuildState.err`); once set, subsequent iterations do
  nothing, which is exactly the abortive behaviour of a JS `throw`
  inside the `for` loop.
-/

attribute [local semireducible] Rat.add Rat.sub Rat.mul Rat.inv

/-- Model of a JavaScript number: a finite (exact) rational, `Infinity`,
`-Infinity` or `NaN`. -/
inductive JNum where
  | num (q : ℚ)
  | inf
  | ninf
  | nan
deriving DecidableEq

namespace JNum

/-- JavaScript `<=` comparison: any comparison with `NaN` is `false`. -/
def jle : JNum → JNum → Bool
  | num a, num b => decide (a ≤ b)
  | num _, inf => true
  | num _, ninf => false
  | num _, nan => false
  | inf, num _ => false
  | inf, inf => true
  | inf, ninf => false
  | inf, nan => false
  | ninf, num _ => true
  | ninf, inf => true
  | ninf, ninf => true
  | ninf, nan => false
  | nan, _ => false

/-- JavaScript `<` comparison: any comparison with `NaN` is `false`. -/
def jlt : JNum → JNum → Bool
  | num a, num b => decide (a < b)
  | num _, inf => true
  | num _, ninf => false
  | num _, nan => false
  | inf, _ => false
  | ninf, num _ => true
  | ninf, inf => true
  | ninf, ninf => false
  | ninf, nan => false
  | nan, _ => false

/-- JavaScript addition on the extended numbers. -/
def jadd : JNum → JNum → JNum
  | num a, num b => num (a + b)
  | num _, inf => inf
  | num _, ninf => ninf
  | inf, num _ => inf
  | inf, inf => inf
  | inf, ninf => nan
  | ninf, num _ => ninf
  | ninf, inf => nan
  | ninf, ninf => ninf
  | nan, _ => nan
  | _, nan => nan

/-- JavaScript subtraction on the extended numbers. -/
def jsub : JNum → JNum → JNum
  | num a, num b => num (a - b)
  | num _, inf => ninf
  | num _, ninf => inf
  | inf, num _ => inf
  | inf, inf => nan
  | inf, ninf => inf
  | ninf, num _ => ninf
  | ninf, inf => ninf
  | ninf, ninf => nan
  | nan, _ => nan
  | _, nan => nan

/-- JavaScript multiplication on the extended numbers
(`0 * Infinity = NaN`). -/
def jmul : JNum → JNum → JNum
  | num a, num b => num (a * b)
  | num a, inf => if 0 < a then inf else if a < 0 then ninf else nan
  | num a, ninf => if 0 < a then ninf else if a < 0 then inf else nan
  | inf, num b => if 0 < b then inf else if b < 0 then ninf else nan
  | ninf, num b => if 0 < b then ninf else if b < 0 then inf else nan
  | inf, inf => inf
  | inf, ninf => ninf
  | ninf, inf => ninf
  | ninf, ninf => inf
  | nan, _ => nan
  | _, nan => nan

/-- JavaScript division on the extended numbers (division by `0` gives a
signed infinity, `0 / 0` and `Infinity / Infinity` give `NaN`). -/
def jdiv : JNum → JNum → JNum
  | num a, num b =>
      if b = 0 then (if 0 < a then inf else if a < 0 then ninf else nan)
      else num (a / b)
  | num _, inf => num 0
  | num _, ninf => num 0
  | inf, num b => if 0 ≤ b then inf else ninf
  | ninf, num b => if 0 ≤ b then ninf else inf
  | inf, inf => nan
  | inf, ninf => nan
  | ninf, inf => nan
  | ninf, ninf => nan
  | nan, _ => nan
  | _, nan => nan

/-- `Math.max` of two arguments: `NaN` if either argument is `NaN`,
otherwise the larger argument. -/
def jmax (a b : JNum) : JNum :=
  if a = nan ∨ b = nan then nan else if jle a b then b else a

/-- `Math.max(...l)`: the spread form starts from `-Infinity` (the value
of `Math.max()` on an empty argument list). -/
def jMaxList (l : List JNum) : JNum := l.foldl jmax ninf

/-- `Number.isFinite`. -/
def jfinite : JNum → Bool
  | num _ => true
  | _ => false

/-- JavaScript truthiness of a number: `0` and `NaN` are falsy. -/
def jtruthy : JNum → Bool
  | num q => decide (q ≠ 0)
  | inf => true
  | ninf => true
  | nan => false

/-- `Math.round`: for a finite argument, the floor of `x + 1/2`
(half-way cases round up, also for negative numbers, as in JS). -/
def jround : JNum → JNum
  | num q => num ((⌊q + 1 / 2⌋ : ℤ) : ℚ)
  | inf => inf
  | ninf => ninf
  | nan => nan

end JNum

/-- `x || fallback` for a possibly-absent number `x` (`x.complete ||
...` in the source): `null`/`undefined`, `0` and `NaN` select the
fallback. -/
def jsOr (c : Option JNum) (fallback : JNum) : JNum :=
  match c with
  | some v => if JNum.jtruthy v then v else fallback
  | none => fallback

/-- A decoded raster, as returned by `frame.getParsedImage()` and by the
scaler: a width, a height, and a flat RGBA byte buffer (`Uint8Array`)
modelled as a list of naturals. -/
structure ImageData where
  width : ℕ
  height : ℕ
  data : List ℕ
deriving DecidableEq

/-- `Math.floor` on a nonnegative rational, as a natural number.  Every
use in the audited code applies it to a nonnegative quantity. -/
def qfloor (q : ℚ) : ℕ := Int.toNat ⌊q⌋

/-- `THUMBNAIL_WIDTH` constant of the source file. -/
def THUMBNAIL_WIDTH : ℕ := 120

/-- `NUMBER_OF_THUMBNAILS` constant of the source file. -/
def NUMBER_OF_THUMBNAILS : ℕ := 10

/-- `scaleFactor = imageData.width / scaledWidth` of
`scaleImageToThumbnail`. -/
def scaleFactorOf (imageData : ImageData) : ℚ :=
  (imageData.width : ℚ) / (THUMBNAIL_WIDTH : ℚ)

/-- `scaledHeight = Math.floor(imageData.height / scaleFactor)` of
`scaleImageToThumbnail`. -/
def scaledHeightOf (imageData : ImageData) : ℕ :=
  qfloor ((imageData.height : ℚ) / scaleFactorOf imageData)

/-- One iteration of the inner loop body of `scaleImageToThumbnail`:
copy the four RGBA channels of source pixel
`(Math.floor(i*scaleFactor), Math.floor(j*scaleFactor))` to output
pixel `(i, j)`.  An out-of-range source read (`undefined`) is coerced
to `0` by the `Uint8Array` store. -/
def writePix (imageData : ImageData) (scaleFactor : ℚ) (scaledWidth : ℕ)
    (outPixels : List ℕ) (i j : ℕ) : List ℕ :=
  let origX := qfloor ((i : ℚ) * scaleFactor)
  let origY := qfloor ((j : ℚ) * scaleFactor)
  let origPos := (origY * imageData.width + origX) * 4
  let outPos := (j * scaledWidth + i) * 4
  ((((outPixels.set outPos ((imageData.data.get? origPos).getD 0)).set
      (outPos + 1) ((imageData.data.get? (origPos + 1)).getD 0)).set
      (outPos + 2) ((imageData.data.get? (origPos + 2)).getD 0)).set
      (outPos + 3) ((imageData.data.get? (origPos + 3)).getD 0))

/-- `ScreenshotThumbnails.scaleImageToThumbnail`: nearest-neighbor
downscale of `imageData` to width `THUMBNAIL_WIDTH`, preserving aspect
ratio.  The nested loops over `i < scaledWidth`, `j < scaledHeight`
write into a zero-initialised buffer of size
`scaledWidth * scaledHeight * 4`. -/
def scaleImageToThumbnail (imageData : ImageData) : ImageData :=
  let scaledWidth := THUMBNAIL_WIDTH
  let scaleFactor := scaleFactorOf imageData
  let scaledHeight := scaledHeightOf imageData
  let outPixels :=
    (List.range scaledWidth).foldl (fun acc i =>
      (List.range scaledHeight).foldl (fun acc2 j =>
        writePix imageData scaleFactor scaledWidth acc2 i j) acc)
      (List.replicate (scaledWidth * scaledHeight * 4) 0)
  { width := scaledWidth, height := scaledHeight, data := outPixels }

/-- The byte value the scaler stores for output pixel `(i, j)`, channel
`c`: the source read at the nearest-neighbor position, with `undefined`
coerced to `0`. -/
def srcVal (imageData : ImageData) (scaleFactor : ℚ) (i j c : ℕ) : ℕ :=
  (imageData.data.get?
    ((qfloor ((j : ℚ) * scaleFactor) * imageData.width +
      qfloor ((i : ℚ) * scaleFactor)) * 4 + c)).getD 0

/-- A speedline frame as consumed by the audit: its timestamp
(`getTimeStamp()`), its interpolation flag
(`isProgressInterpolated()`), and its decoded raster
(`getParsedImage()`). -/
structure Frame where
  timestamp : JNum
  isProgressInterpolated : Bool
  getParsedImage : ImageData
deriving DecidableEq

/-- The speedline artifact consumed by `_audit`: the ordered frame list,
the `beginning` timestamp and the `complete` duration (absent values of
`complete` are modelled by `none`). -/
structure Speedline where
  frames : List Frame
  beginning : JNum
  complete : Option JNum
deriving DecidableEq

/-- An error that can cross the `try`/`catch` of `audit`: a
`LighthouseError` carrying its string code, or a `TypeError` from
dereferencing `null` (whose `code` property is `undefined`). -/
inductive JSError where
  | lighthouseErr (code : String)
  | typeErr
deriving DecidableEq

/-- `artifacts.GatherContext.gatherMode` values relevant to the audit. -/
inductive GatherMode where
  | navigation
  | timespan
deriving DecidableEq

/-- One entry pushed onto `thumbnails` in the bucket loop. -/
structure Thumbnail where
  timing : JNum
  timestamp : JNum
  data : String
deriving DecidableEq

/-- The `details` object of a successful audit product. -/
structure FilmstripDetails where
  type : String
  scale : JNum
  items : List Thumbnail
deriving DecidableEq

/-- The audit product: `score`, the optional `notApplicable` flag and
the optional `details`. -/
structure AuditProduct where
  score : ℕ
  notApplicable : Bool
  details : Option FilmstripDetails
deriving DecidableEq

/-- `context.options.minimumTimelineDuration || 3000`: an absent or zero
configured minimum falls back to `3000`. -/
def minDurVal (m : Option ℚ) : ℚ :=
  match m with
  | some q => if q = 0 then 3000 else q
  | none => 3000

/-- `analyzedFrames = speedline.frames.filter(frame =>
!frame.isProgressInterpolated())`. -/
def analyzedOf (speedline : Speedline) : List Frame :=
  speedline.frames.filter (fun frame => !frame.isProgressInterpolated)

/-- `maxFrameTime = speedline.complete ||
Math.max(...speedline.frames.map(frame => frame.getTimeStamp() -
speedline.beginning))`. -/
def maxFrameTimeOf (speedline : Speedline) : JNum :=
  jsOr speedline.complete
    (JNum.jMaxList (speedline.frames.map
      (fun frame => JNum.jsub frame.timestamp speedline.beginning)))

/-- `timelineEnd = Math.max(maxFrameTime, minimumTimelineDuration)`. -/
def timelineEndOf (speedline : Speedline) (m : Option ℚ) : JNum :=
  JNum.jmax (maxFrameTimeOf speedline) (JNum.num (minDurVal m))

/-- `targetTimestamp = speedline.beginning + timelineEnd * i /
NUMBER_OF_THUMBNAILS` for bucket `i`. -/
def targetOf (beginning timelineEnd : JNum) (i : ℕ) : JNum :=
  JNum.jadd beginning
    (JNum.jdiv (JNum.jmul timelineEnd (JNum.num (i : ℚ)))
      (JNum.num (NUMBER_OF_THUMBNAILS : ℚ)))

/-- The per-bucket frame selection of `_audit`: for the final bucket the
chronologically last analyzed frame, otherwise the `forEach` scan that
keeps reassigning `frameForTimestamp` to any frame with
`frame.getTimeStamp() <= targetTimestamp`.  The result is paired with
the frame's position in `analyzedFrames`, which stands for the JS
object identity used as the `Map` key. -/
def frameForTimestamp (analyzedFrames : List Frame) (i : ℕ)
    (targetTimestamp : JNum) : Option (ℕ × Frame) :=
  if i = NUMBER_OF_THUMBNAILS then
    analyzedFrames.enum.getLast?
  else
    analyzedFrames.enum.foldl
      (fun acc p =>
        if JNum.jle p.2.timestamp targetTimestamp then some p else acc)
      none

/-- The thumbnail object pushed for one bucket: `timing:
Math.round(targetTimestamp - speedline.beginning)`, `timestamp:
targetTimestamp * 1000`, and the data URI prefix glued to the base64
payload. -/
def mkThumb (targetTimestamp beginning : JNum) (base64Data : String) :
    Thumbnail :=
  { timing := JNum.jround (JNum.jsub targetTimestamp beginning)
    timestamp := JNum.jmul targetTimestamp (JNum.num 1000)
    data := "data:image/jpeg;base64," ++ base64Data }

/-- State threaded through the bucket loop: the `cachedThumbnails` map
(keyed by the selected frame's position in `analyzedFrames`), the
`thumbnails` accumulator, the positions on which the encoder has been
invoked (in call order), and the pending thrown error, if any. -/
structure BuildState where
  cache : List (ℕ × String)
  thumbnails : List Thumbnail
  encodeLog : List ℕ
  err : Option JSError
deriving DecidableEq

/-- One iteration of the bucket loop of `_audit`.  A pending error makes
the iteration a no-op (the JS `throw` aborts the loop).  If no frame was
selected, `frameForTimestamp.getParsedImage()` throws a `TypeError`.
The cache test is `if (cachedThumbnail)`, so a cached empty string is
falsy and is treated as a miss, exactly as in the source. -/
def bucketStep (analyzedFrames : List Frame) (beginning timelineEnd : JNum)
    (encode : ImageData → String) (st : BuildState) (i : ℕ) : BuildState :=
  if st.err.isSome then st
  else
    let targetTimestamp := targetOf beginning timelineEnd i
    match frameForTimestamp analyzedFrames i targetTimestamp with
    | none => { st with err := some JSError.typeErr }
    | some kf =>
      let cachedThumbnail :=
        match List.lookup kf.1 st.cache with
        | some b => if b = "" then none else some b
        | none => none
      match cachedThumbnail with
      | some base64Data =>
        { st with thumbnails :=
            st.thumbnails ++ [mkThumb targetTimestamp beginning base64Data] }
      | none =>
        let imageData := kf.2.getParsedImage
        let thumbnailImageData := scaleImageToThumbnail imageData
        let base64Data := encode thumbnailImageData
        { cache := (kf.1, base64Data) :: st.cache
          thumbnails :=
            st.thumbnails ++ [mkThumb targetTimestamp beginning base64Data]
          encodeLog := st.encodeLog ++ [kf.1]
          err := none }

/-- The bucket loop `for (let i = 1; i <= NUMBER_OF_THUMBNAILS; i++)`. -/
def runBuckets (analyzedFrames : List Frame) (beginning timelineEnd : JNum)
    (encode : ImageData → String) : BuildState :=
  (List.range' 1 NUMBER_OF_THUMBNAILS).foldl
    (bucketStep analyzedFrames beginning timelineEnd encode)
    { cache := [], thumbnails := [], encodeLog := [], err := none }

/-- `ScreenshotThumbnails._audit`, applied to an already-acquired
speedline artifact: compute `analyzedFrames`, `maxFrameTime` and
`timelineEnd`, throw `INVALID_SPEEDLINE` if there are no analyzed
frames or `timelineEnd` is not finite, otherwise run the bucket loop
and assemble the filmstrip product. -/
def auditCore (speedline : Speedline) (m : Option ℚ)
    (encode : ImageData → String) : Except JSError AuditProduct :=
  let analyzedFrames := analyzedOf speedline
  let timelineEnd := timelineEndOf speedline m
  if analyzedFrames.isEmpty || !(JNum.jfinite timelineEnd) then
    Except.error (JSError.lighthouseErr "INVALID_SPEEDLINE")
  else
    let st := runBuckets analyzedFrames speedline.beginning timelineEnd encode
    match st.err with
    | some e => Except.error e
    | none =>
      Except.ok
        { score := 1
          notApplicable := false
          details := some
            { type := "filmstrip", scale := timelineEnd,
              items := st.thumbnails } }

/-- `ScreenshotThumbnails._audit` including the `await
Speedline.request(...)` boundary: a failed speedline computation
rejects with its error before any local work. -/
def auditInner (speedlineOutcome : Except JSError Speedline) (m : Option ℚ)
    (encode : ImageData → String) : Except JSError AuditProduct :=
  match speedlineOutcome with
  | Except.error e => Except.error e
  | Except.ok speedline => auditCore speedline m encode

/-- The `noFramesErrors` code set built in the `catch` of `audit`. -/
def noFramesErrors : List String :=
  ["NO_SCREENSHOTS", "SPEEDINDEX_OF_ZERO", "NO_SPEEDLINE_FRAMES",
   "INVALID_SPEEDLINE"]

/-- `noFramesErrors.has(err.code)`: a `TypeError` has no `code`
property, so it is never in the set. -/
def errInNoFramesSet (err : JSError) : Bool :=
  match err with
  | JSError.lighthouseErr code => noFramesErrors.contains code
  | JSError.typeErr => false

/-- `ScreenshotThumbnails.audit`: run `_audit`; on a thrown error,
return `{notApplicable: true, score: 1}` when the error code is in
`noFramesErrors` and the gather mode is `timespan`, otherwise rethrow
the original error. -/
def audit (speedlineOutcome : Except JSError Speedline) (m : Option ℚ)
    (encode : ImageData → String) (gatherMode : GatherMode) :
    Except JSError AuditProduct :=
  match auditInner speedlineOutcome m encode with
  | Except.ok product => Except.ok product
  | Except.error err =>
    if errInNoFramesSet err && (gatherMode == GatherMode.timespan) then
      Except.ok { score := 1, notApplicable := true, details := none }
    else
      Except.error err

/-- `true` exactly on a successful (`ok`) result. -/
def isOkE {ε α : Type} : Except ε α → Bool
  | Except.ok _ => true
  | Except.error _ => false

instance {ε α : Type} [DecidableEq ε] [DecidableEq α] :
    DecidableEq (Except ε α) := fun a b =>
  match a, b with
  | Except.ok x, Except.ok y =>
    if h : x = y then isTrue (by rw [h]) else
      isFalse (fun hc => h (Except.ok.injEq .. ▸ hc))
  | Except.ok _, Except.error _ => isFalse (fun hc => Except.noConfusion hc)
  | Except.error _, Except.ok _ => isFalse (fun hc => Except.noConfusion hc)
  | Except.error x, Except.error y =>
    if h : x = y then isTrue (by rw [h]) else
      isFalse (fun hc => h (Except.error.injEq .. ▸ hc))

/-- The filmstrip items of an audit result (`[]` when the result is an
error or carries no details). -/
def itemsOf (r : Except JSError AuditProduct) : List Thumbnail :=
  match r with
  | Except.ok p =>
    match p.details with
    | some d => d.items
    | none => []
  | Except.error _ => []

/-- Strict ascent of a list of JS numbers under the JS `<` order. -/
def strictlyAscending (l : List JNum) : Prop :=
  l.Chain' (fun a b => JNum.jlt a b = true)

instance strictlyAscendingDec : (l : List JNum) → Decidable (strictlyAscending l)
  | [] => isTrue List.chain'_nil
  | [a] => isTrue (List.chain'_singleton a)
  | a :: b :: t =>
    match strictlyAscendingDec (b :: t) with
    | isTrue h =>
      if hab : JNum.jlt a b = true then
        isTrue (List.chain'_cons.mpr ⟨hab, h⟩)
      else isFalse (fun hc => hab (List.chain'_cons.mp hc).1)
    | isFalse h => isFalse (fun hc => h (List.chain'_cons.mp hc).2)

/-- The thumbnail the specification predicts for bucket `i`: the data
URI of the encoded, scaled raster of the frame selected for `i`, with
`timing = round(target - beginning)` and `timestamp = target * 1000`.
(The `default` branch is unreachable on a successful build.) -/
def specThumb (analyzedFrames : List Frame) (beginning timelineEnd : JNum)
    (encode : ImageData → String) (i : ℕ) : Thumbnail :=
  match frameForTimestamp analyzedFrames i (targetOf beginning timelineEnd i) with
  | some kf =>
    mkThumb (targetOf beginning timelineEnd i) beginning
      (encode (scaleImageToThumbnail kf.2.getParsedImage))
  | none => { timing := JNum.nan, timestamp := JNum.nan, data := "" }

/-- The conclusion of the scaler correctness claim for an input raster:
output width `120`, output height `floor(height / (width/120))`, and
every output pixel channel copied verbatim from the nearest-neighbor
source pixel. -/
def scalerSpec (imageData : ImageData) : Prop :=
  (scaleImageToThumbnail imageData).width = 120 ∧
  (scaleImageToThumbnail imageData).height =
    qfloor ((imageData.height : ℚ) / ((imageData.width : ℚ) / 120)) ∧
  ∀ i j c, i < 120 → j < (scaleImageToThumbnail imageData).height → c < 4 →
    (scaleImageToThumbnail imageData).data.get? ((j * 120 + i) * 4 + c) =
      imageData.data.get?
        ((qfloor ((j : ℚ) * ((imageData.width : ℚ) / 120)) * imageData.width +
          qfloor ((i : ℚ) * ((imageData.width : ℚ) / 120))) * 4 + c)

/-- A trivial encoder for concrete runs: every raster encodes to the
one-character payload `"x"` (nonempty, like every real JPEG). -/
def encX : ImageData → String := fun _ => "x"

/-- A 1-pixel-wide, 0-pixel-high raster: scaling it is trivial, which
keeps concrete whole-pipeline runs cheaply computable. -/
def tinyImage : ImageData := { width := 1, height := 0, data := [] }

/-- Concrete speedline: one analyzed frame at the beginning. -/
def slOneFrame : Speedline :=
  { frames := [{ timestamp := JNum.num 0, isProgressInterpolated := false,
                 getParsedImage := tinyImage }]
    beginning := JNum.num 0
    complete := none }

/-- Concrete speedline whose `beginning` is `Infinity` while `complete`
is a truthy finite number, so the guard passes but every target
timestamp is `Infinity`. -/
def slInfBeginning : Speedline :=
  { frames := [{ timestamp := JNum.num 0, isProgressInterpolated := false,
                 getParsedImage := tinyImage }]
    beginning := JNum.inf
    complete := some (JNum.num 5000) }

/-- Concrete speedline with `complete = 0` (non-null but falsy) and a
frame 5000ms after the beginning. -/
def slCompleteZero : Speedline :=
  { frames := [{ timestamp := JNum.num 5000, isProgressInterpolated := false,
                 getParsedImage := tinyImage }]
    beginning := JNum.num 0
    complete := some (JNum.num 0) }

/-- Concrete speedline with `completion = null`, maximum relative frame
time 1500ms. -/
def slRel1500 : Speedline :=
  { frames := [{ timestamp := JNum.num 1500, isProgressInterpolated := false,
                 getParsedImage := tinyImage }]
    beginning := JNum.num 0
    complete := none }

/-- Concrete speedline with `completion = 5000`, maximum relative frame
time 1500ms. -/
def slComplete5000 : Speedline :=
  { frames := [{ timestamp := JNum.num 1500, isProgressInterpolated := false,
                 getParsedImage := tinyImage }]
    beginning := JNum.num 0
    complete := some (JNum.num 5000) }

/-- Concrete speedline whose only frame is interpolated: no analyzed
frames. -/
def slAllInterpolated : Speedline :=
  { frames := [{ timestamp := JNum.num 100, isProgressInterpolated := true,
                 getParsedImage := tinyImage }]
    beginning := JNum.num 0
    complete := none }

/-- Concrete speedline whose single analyzed frame has a `NaN` timestamp
and whose `complete` is `Infinity`: no frame satisfies the first
bucket's comparison, yet `timelineEnd` is not finite. -/
def slNanFrame : Speedline :=
  { frames := [{ timestamp := JNum.nan, isProgressInterpolated := false,
                 getParsedImage := tinyImage }]
    beginning := JNum.num 0
    complete := some JNum.inf }

/-- Concrete speedline whose single analyzed frame sits well past every
bucket target (`timelineEnd` is its relative time, so the first target
is a tenth of it). -/
def slLateFrame : Speedline :=
  { frames := [{ timestamp := JNum.num 99999, isProgressInterpolated := false,
                 getParsedImage := tinyImage }]
    beginning := JNum.num 0
    complete := none }

/-- The 4-by-4 test raster with 16 distinct pixels: channel value `n` at
flat position `n`, so pixel `(x, y)` holds the bytes `4*(4*y+x) + c`. -/
def img4 : ImageData :=
  { width := 4, height := 4, data := List.range 64 }

/-- A 1-by-1 raster used to instantiate the scaler theorem. -/
def img1 : ImageData := { width := 1, height := 1, data := [9, 8, 7, 6] }

/-- The selection policy the specification claims: buckets `1..9` take
the last analyzed frame (in timeline order) whose timestamp is at most
the bucket target, and bucket `10` takes the chronologically last
analyzed frame. -/
def samplerSpec (speedline : Speedline) (m : Option ℚ) : Prop :=
  (∀ i, 1 ≤ i → i ≤ 9 →
    (frameForTimestamp (analyzedOf speedline) i
        (targetOf speedline.beginning (timelineEndOf speedline m) i)).map
        Prod.snd =
      ((analyzedOf speedline).filter (fun f =>
        JNum.jle f.timestamp
          (targetOf speedline.beginning
            (timelineEndOf speedline m) i))).getLast?) ∧
  (frameForTimestamp (analyzedOf speedline) NUMBER_OF_THUMBNAILS
      (targetOf speedline.beginning (timelineEndOf speedline m)
        NUMBER_OF_THUMBNAILS)).map Prod.snd =
    (analyzedOf speedline).getLast?

/-- The successful product of a result, or `d` when it is an error. -/
def okOr (r : Except JSError AuditProduct) (d : AuditProduct) : AuditProduct :=
  match r with
  | Except.ok p => p
  | Except.error _ => d

/-- Every cache entry maps the position of a frame of `analyzedFrames`
to the encoding of that frame's scaled raster. -/
def cacheConsistent (analyzedFrames : List Frame)
    (encode : ImageData → String) (cache : List (ℕ × String)) : Prop :=
  ∀ k b, List.lookup k cache = some b →
    ∃ f, analyzedFrames.get? k = some f ∧
      b = encode (scaleImageToThumbnail f.getParsedImage)

/-- The result shape the specification claims for a successful build:
score 1, `filmstrip` details scaled by `timelineEnd`, and the items
assembled in bucket order, each one `mkThumb`-shaped from its bucket's
target timestamp and the encoding of its selected frame's scaled
raster. -/
def assemblySpec (speedline : Speedline) (m : Option ℚ)
    (encode : ImageData → String) (p : AuditProduct) : Prop :=
  p.score = 1 ∧ p.notApplicable = false ∧
  p.details = some
    { type := "filmstrip"
      scale := timelineEndOf speedline m
      items := (List.range' 1 NUMBER_OF_THUMBNAILS).map
        (specThumb (analyzedOf speedline) speedline.beginning
          (timelineEndOf speedline m) encode) } ∧
  ∀ i ∈ List.range' 1 NUMBER_OF_THUMBNAILS,
    ∃ kf, frameForTimestamp (analyzedOf speedline) i
        (targetOf speedline.beginning (timelineEndOf speedline m) i) =
          some kf ∧
      specThumb (analyzedOf speedline) speedline.beginning
          (timelineEndOf speedline m) encode i =
        mkThumb (targetOf speedline.beginning (timelineEndOf speedline m) i)
          speedline.beginning
          (encode (scaleImageToThumbnail kf.2.getParsedImage))

/-- The at-most-once encoding property the specification claims: the
encoder-invocation log of a build has no duplicates, and it contains
exactly the positions of the frames selected by some bucket. -/
def encodeOnceSpec (speedline : Speedline) (m : Option ℚ)
    (encode : ImageData → String) : Prop :=
  (runBuckets (analyzedOf speedline) speedline.beginning
      (timelineEndOf speedline m) encode).encodeLog.Nodup ∧
  ∀ k, k ∈ (runBuckets (analyzedOf speedline) speedline.beginning
      (timelineEndOf speedline m) encode).encodeLog ↔
    ∃ i ∈ List.range' 1 NUMBER_OF_THUMBNAILS, ∃ f,
      frameForTimestamp (analyzedOf speedline) i
        (targetOf speedline.beginning (timelineEndOf speedline m) i) =
          some (k, f)

theorem getLast?_cons_or {α : Type} (x : α) (l : List α) :
    (x :: l).getLast? = l.getLast?.or (some x) := by
  induction l generalizing x with
  | nil => rfl
  | cons y ys ih =>
    rw [List.getLast?_cons_cons, ih y]
    cases hys : ys.getLast? <;> simp

theorem foldl_ifsome_eq {α : Type} (p : α → Bool) (l : List α)
    (init : Option α) :
    l.foldl (fun acc x => if p x then some x else acc) init =
      ((l.filter p).getLast?).or init := by
  induction l generalizing init with
  | nil => simp
  | cons x xs ih =>
    rw [List.foldl_cons, ih]
    by_cases hx : p x = true
    · rw [List.filter_cons_of_pos hx, if_pos hx, getLast?_cons_or]
      cases hl : (xs.filter p).getLast? <;> simp
    · rw [List.filter_cons_of_neg (by simpa using hx),
        if_neg (by simpa using hx)]

theorem enum_filter_map_snd {α : Type} (p : α → Bool) (l : List α) :
    ((l.enum.filter (fun q => p q.2)).getLast?).map Prod.snd =
      (l.filter p).getLast? := by
  rw [← List.getLast?_map]
  congr 1
  have h1 : (fun q : ℕ × α => p q.2) = (p ∘ Prod.snd) := rfl
  have h2 : l = (l.enum.map Prod.snd) := by
    rw [List.enum_eq_enumFrom, List.enumFrom_map_snd]
  rw [h1]
  conv_rhs => rw [h2]
  rw [List.filter_map]

/-- For a non-final bucket, the frame selected by the `forEach` scan is
exactly the last analyzed frame (in list order) whose timestamp is at
or before the target; `none` when no frame qualifies. -/
theorem frameForTimestamp_eq_filter_getLast (analyzedFrames : List Frame)
    (i : ℕ) (t : JNum) (hi : i ≠ NUMBER_OF_THUMBNAILS) :
    (frameForTimestamp analyzedFrames i t).map Prod.snd =
      (analyzedFrames.filter
        (fun f => JNum.jle f.timestamp t)).getLast? := by
  unfold frameForTimestamp
  rw [if_neg hi, foldl_ifsome_eq, Option.or_none]
  exact enum_filter_map_snd (fun f => JNum.jle f.timestamp t) analyzedFrames

/-- For the final bucket, the selected frame is the chronologically last
analyzed frame, regardless of the target timestamp. -/
theorem frameForTimestamp_final (analyzedFrames : List Frame) (t : JNum) :
    (frameForTimestamp analyzedFrames NUMBER_OF_THUMBNAILS t).map Prod.snd =
      analyzedFrames.getLast? := by
  unfold frameForTimestamp
  rw [if_pos rfl, ← List.getLast?_map, List.enum_eq_enumFrom,
    List.enumFrom_map_snd]

theorem qfloor_lt_of_lt {q : ℚ} {n : ℕ} (hn : 0 < n) (h : q < n) :
    qfloor q < n := by
  unfold qfloor
  rcases le_or_lt 0 ⌊q⌋ with h0 | h0
  · rw [Int.toNat_lt h0]
    exact Int.floor_lt.mpr (by exact_mod_cast h)
  · rw [Int.toNat_of_nonpos h0.le]
    exact hn

theorem qfloor_cast_le {q : ℚ} (hq : 0 ≤ q) : (qfloor q : ℚ) ≤ q := by
  unfold qfloor
  have h0 : 0 ≤ ⌊q⌋ := Int.floor_nonneg.mpr hq
  have h1 : ((Int.toNat ⌊q⌋ : ℤ) : ℚ) ≤ q := by
    rw [Int.toNat_of_nonneg h0]
    exact Int.floor_le q
  exact_mod_cast h1

theorem writePix_length (imageData : ImageData) (sf : ℚ) (W : ℕ)
    (out : List ℕ) (i j : ℕ) :
    (writePix imageData sf W out i j).length = out.length := by
  simp [writePix]

theorem writePix_get_same (imageData : ImageData) (sf : ℚ) (out : List ℕ)
    (i j c : ℕ) (hc : c < 4)
    (hlen : (j * 120 + i) * 4 + c < out.length) :
    (writePix imageData sf 120 out i j).get? ((j * 120 + i) * 4 + c) =
      some (srcVal imageData sf i j c) := by
  simp only [writePix, srcVal, List.get?_eq_getElem?]
  interval_cases c
  all_goals try simp only [Nat.add_zero]
  all_goals (repeat rw [List.getElem?_set_ne (by omega)])
  all_goals rw [List.getElem?_set_self
    (by (try simp only [List.length_set]); omega)]

theorem writePix_get_other (imageData : ImageData) (sf : ℚ) (out : List ℕ)
    (i j i₀ j₀ c₀ : ℕ) (hi : i < 120) (hi₀ : i₀ < 120) (hc₀ : c₀ < 4)
    (hne : i ≠ i₀ ∨ j ≠ j₀) :
    (writePix imageData sf 120 out i j).get? ((j₀ * 120 + i₀) * 4 + c₀) =
      out.get? ((j₀ * 120 + i₀) * 4 + c₀) := by
  simp only [writePix, List.get?_eq_getElem?]
  rw [List.getElem?_set_ne (by omega), List.getElem?_set_ne (by omega),
    List.getElem?_set_ne (by omega), List.getElem?_set_ne (by omega)]

theorem innerFold_length (imageData : ImageData) (sf : ℚ) (i : ℕ)
    (l : List ℕ) (out : List ℕ) :
    (l.foldl (fun acc j => writePix imageData sf 120 acc i j) out).length =
      out.length := by
  induction l generalizing out with
  | nil => rfl
  | cons j t ih => rw [List.foldl_cons, ih, writePix_length]

theorem innerFold_other (imageData : ImageData) (sf : ℚ)
    (i i₀ j₀ c₀ : ℕ) (l : List ℕ) (out : List ℕ)
    (hi : i < 120) (hi₀ : i₀ < 120) (hc₀ : c₀ < 4)
    (h : i ≠ i₀ ∨ j₀ ∉ l) :
    (l.foldl (fun acc j => writePix imageData sf 120 acc i j) out).get?
        ((j₀ * 120 + i₀) * 4 + c₀) =
      out.get? ((j₀ * 120 + i₀) * 4 + c₀) := by
  induction l generalizing out with
  | nil => rfl
  | cons j t ih =>
    rw [List.foldl_cons]
    have ht : i ≠ i₀ ∨ j₀ ∉ t := by
      rcases h with h1 | h1
      · exact Or.inl h1
      · exact Or.inr (fun hm => h1 (List.mem_cons_of_mem j hm))
    have hj : i ≠ i₀ ∨ j ≠ j₀ := by
      rcases h with h1 | h1
      · exact Or.inl h1
      · exact Or.inr (fun he => h1 (he ▸ List.mem_cons_self j t))
    rw [ih _ ht]
    exact writePix_get_other imageData sf out i j i₀ j₀ c₀ hi hi₀ hc₀ hj

theorem innerFold_hit (imageData : ImageData) (sf : ℚ)
    (i₀ j₀ c₀ : ℕ) (l : List ℕ) (out : List ℕ)
    (hi₀ : i₀ < 120) (hc₀ : c₀ < 4) (hin : j₀ ∈ l)
    (hlen : (j₀ * 120 + i₀) * 4 + c₀ < out.length) :
    (l.foldl (fun acc j => writePix imageData sf 120 acc i₀ j) out).get?
        ((j₀ * 120 + i₀) * 4 + c₀) =
      some (srcVal imageData sf i₀ j₀ c₀) := by
  induction l generalizing out with
  | nil => cases hin
  | cons j t ih =>
    rw [List.foldl_cons]
    by_cases hjt : j₀ ∈ t
    · exact ih _ hjt (by rw [writePix_length]; exact hlen)
    · have hj : j = j₀ := by
        rcases List.mem_cons.mp hin with h1 | h1
        · exact h1.symm
        · exact absurd h1 hjt
      subst hj
      rw [innerFold_other imageData sf i₀ i₀ j c₀ t _ hi₀ hi₀ hc₀
        (Or.inr hjt)]
      exact writePix_get_same imageData sf out i₀ j c₀ hc₀ hlen

theorem outerFold_length (imageData : ImageData) (sf : ℚ) (n : ℕ)
    (l : List ℕ) (out : List ℕ) :
    (l.foldl (fun acc i => (List.range n).foldl
        (fun acc2 j => writePix imageData sf 120 acc2 i j) acc) out).length =
      out.length := by
  induction l generalizing out with
  | nil => rfl
  | cons i t ih => rw [List.foldl_cons, ih, innerFold_length]

theorem outerFold_other (imageData : ImageData) (sf : ℚ) (n : ℕ)
    (i₀ j₀ c₀ : ℕ) (l : List ℕ) (out : List ℕ)
    (hi₀ : i₀ < 120) (hc₀ : c₀ < 4) (hnot : i₀ ∉ l)
    (hmem : ∀ i ∈ l, i < 120) :
    (l.foldl (fun acc i => (List.range n).foldl
        (fun acc2 j => writePix imageData sf 120 acc2 i j) acc) out).get?
        ((j₀ * 120 + i₀) * 4 + c₀) =
      out.get? ((j₀ * 120 + i₀) * 4 + c₀) := by
  induction l generalizing out with
  | nil => rfl
  | cons i t ih =>
    rw [List.foldl_cons]
    have hti : i₀ ∉ t := fun hm => hnot (List.mem_cons_of_mem i hm)
    have hii : i ≠ i₀ := fun he => hnot (he ▸ List.mem_cons_self i t)
    rw [ih _ hti (fun x hx => hmem x (List.mem_cons_of_mem i hx))]
    exact innerFold_other imageData sf i i₀ j₀ c₀ (List.range n) out
      (hmem i (List.mem_cons_self i t)) hi₀ hc₀ (Or.inl hii)

theorem outerFold_hit (imageData : ImageData) (sf : ℚ) (n : ℕ)
    (i₀ j₀ c₀ : ℕ) (l : List ℕ) (out : List ℕ)
    (hi₀ : i₀ < 120) (hj₀ : j₀ < n) (hc₀ : c₀ < 4) (hin : i₀ ∈ l)
    (hmem : ∀ i ∈ l, i < 120)
    (hlen : (j₀ * 120 + i₀) * 4 + c₀ < out.length) :
    (l.foldl (fun acc i => (List.range n).foldl
        (fun acc2 j => writePix imageData sf 120 acc2 i j) acc) out).get?
        ((j₀ * 120 + i₀) * 4 + c₀) =
      some (srcVal imageData sf i₀ j₀ c₀) := by
  induction l generalizing out with
  | nil => cases hin
  | cons i t ih =>
    rw [List.foldl_cons]
    by_cases hit : i₀ ∈ t
    · exact ih _ hit (fun x hx => hmem x (List.mem_cons_of_mem i hx))
        (by rw [innerFold_length]; exact hlen)
    · have hi : i = i₀ := by
        rcases List.mem_cons.mp hin with h1 | h1
        · exact h1.symm
        · exact absurd h1 hit
      subst hi
      rw [outerFold_other imageData sf n i j₀ c₀ t _ hi₀ hc₀ hit
        (fun x hx => hmem x (List.mem_cons_of_mem i hx))]
      exact innerFold_hit imageData sf i j₀ c₀ (List.range n) out hi₀ hc₀
        (List.mem_range.mpr hj₀) hlen

/-- Characterization of the scaler output buffer: within bounds, output
position `(j*120 + i)*4 + c` holds the byte read from the
nearest-neighbor source position (with the out-of-range-read-to-zero
coercion of `Uint8Array`). -/
theorem scale_data_get (imageData : ImageData) (i j c : ℕ)
    (hi : i < 120) (hj : j < scaledHeightOf imageData) (hc : c < 4) :
    (scaleImageToThumbnail imageData).data.get? ((j * 120 + i) * 4 + c) =
      some (srcVal imageData (scaleFactorOf imageData) i j c) := by
  simp only [scaleImageToThumbnail, THUMBNAIL_WIDTH]
  refine outerFold_hit imageData (scaleFactorOf imageData)
    (scaledHeightOf imageData) i j c (List.range 120) _ hi hj hc
    (List.mem_range.mpr hi) (fun x hx => List.mem_range.mp hx) ?_
  rw [List.length_replicate]
  omega

theorem scaleFactorOf_eq (imageData : ImageData) :
    scaleFactorOf imageData = (imageData.width : ℚ) / 120 := by
  norm_num [scaleFactorOf, THUMBNAIL_WIDTH]

theorem scaledHeightOf_eq (imageData : ImageData) :
    scaledHeightOf imageData =
      qfloor ((imageData.height : ℚ) / ((imageData.width : ℚ) / 120)) := by
  rw [scaledHeightOf, scaleFactorOf_eq]

theorem origX_lt (imageData : ImageData) (hw : 1 ≤ imageData.width)
    (i : ℕ) (hi : i < 120) :
    qfloor ((i : ℚ) * scaleFactorOf imageData) < imageData.width := by
  apply qfloor_lt_of_lt (by omega)
  rw [scaleFactorOf_eq]
  have hw2 : (0 : ℚ) < (imageData.width : ℚ) := by exact_mod_cast hw
  have h1 : (i : ℚ) < 120 := by exact_mod_cast hi
  calc (i : ℚ) * ((imageData.width : ℚ) / 120)
      < 120 * ((imageData.width : ℚ) / 120) := by
        apply mul_lt_mul_of_pos_right h1
        positivity
    _ = (imageData.width : ℚ) := by field_simp

theorem origY_lt (imageData : ImageData) (hw : 1 ≤ imageData.width)
    (j : ℕ) (hj : j < scaledHeightOf imageData) :
    qfloor ((j : ℚ) * scaleFactorOf imageData) < imageData.height := by
  have hw2 : (0 : ℚ) < (imageData.width : ℚ) := by exact_mod_cast hw
  have hsf : (0 : ℚ) < scaleFactorOf imageData := by
    rw [scaleFactorOf_eq]
    positivity
  have hfr : (j : ℚ) < (imageData.height : ℚ) / scaleFactorOf imageData := by
    have h1 : (j : ℚ) + 1 ≤
        (qfloor ((imageData.height : ℚ) / scaleFactorOf imageData) : ℚ) := by
      have := hj
      rw [scaledHeightOf] at this
      exact_mod_cast this
    have h2 : (qfloor ((imageData.height : ℚ) / scaleFactorOf imageData) : ℚ) ≤
        (imageData.height : ℚ) / scaleFactorOf imageData :=
      qfloor_cast_le (by positivity)
    linarith
  have hlt : (j : ℚ) * scaleFactorOf imageData < (imageData.height : ℚ) :=
    (lt_div_iff₀ hsf).mp hfr
  have hh : 0 < imageData.height := by
    by_contra h0
    push_neg at h0
    have hz : imageData.height = 0 := by omega
    rw [hz] at hlt
    have : (0 : ℚ) ≤ (j : ℚ) * scaleFactorOf imageData := by positivity
    simp only [Nat.cast_zero] at hlt
    linarith
  exact qfloor_lt_of_lt hh hlt

theorem origPos_lt (imageData : ImageData) (hw : 1 ≤ imageData.width)
    (hlen : imageData.data.length = imageData.width * imageData.height * 4)
    (i j c : ℕ) (hi : i < 120) (hj : j < scaledHeightOf imageData)
    (hc : c < 4) :
    (qfloor ((j : ℚ) * scaleFactorOf imageData) * imageData.width +
        qfloor ((i : ℚ) * scaleFactorOf imageData)) * 4 + c <
      imageData.data.length := by
  rw [hlen]
  have hx := origX_lt imageData hw i hi
  have hy := origY_lt imageData hw j hj
  have h1 : qfloor ((j : ℚ) * scaleFactorOf imageData) * imageData.width +
      imageData.width ≤ imageData.width * imageData.height := by
    have h2 : (qfloor ((j : ℚ) * scaleFactorOf imageData) + 1) *
        imageData.width ≤ imageData.height * imageData.width :=
      Nat.mul_le_mul_right imageData.width hy
    rw [Nat.succ_mul] at h2
    rw [mul_comm imageData.width imageData.height]
    exact h2
  generalize hA : qfloor ((j : ℚ) * scaleFactorOf imageData) *
    imageData.width = A at h1 ⊢
  generalize hB : imageData.width * imageData.height = B at h1 ⊢
  omega

/-- C2: for an input raster of width at least 1 satisfying the RGBA
length invariant, the scaler outputs width exactly 120, height
`floor(height / (width/120))`, and copies every output pixel channel
verbatim from source pixel
`(floor(i*(width/120)), floor(j*(width/120)))`; in particular a
1200-by-800 input yields a 120-by-80 output. -/
theorem claim2_scaler_correct (imageData : ImageData)
    (hw : 1 ≤ imageData.width)
    (hlen : imageData.data.length = imageData.width * imageData.height * 4) :
    scalerSpec imageData ∧
      (∀ img2 : ImageData, img2.width = 1200 → img2.height = 800 →
        (scaleImageToThumbnail img2).width = 120 ∧
        (scaleImageToThumbnail img2).height = 80) := by
  constructor
  · refine ⟨rfl, ?_, ?_⟩
    · show scaledHeightOf imageData = _
      exact scaledHeightOf_eq imageData
    · intro i j c hi hj hc
      have hj2 : j < scaledHeightOf imageData := hj
      rw [scale_data_get imageData i j c hi hj2 hc]
      have hpos := origPos_lt imageData hw hlen i j c hi hj2 hc
      rw [srcVal, List.get?_eq_getElem?, List.get?_eq_getElem?,
        List.getElem?_eq_getElem hpos]
      rw [← scaleFactorOf_eq]
      rw [List.getElem?_eq_getElem hpos]
      rfl
  · intro img2 h2w h2h
    refine ⟨rfl, ?_⟩
    show scaledHeightOf img2 = 80
    rw [scaledHeightOf_eq, h2w, h2h]
    norm_num [qfloor]
    rfl

/-- Witness for C2 at a concrete 1-by-1 raster. -/
theorem claim2_witness :
    (1 ≤ img1.width ∧
      img1.data.length = img1.width * img1.height * 4) ∧
    (scalerSpec img1 ∧
      (∀ img2 : ImageData, img2.width = 1200 → img2.height = 800 →
        (scaleImageToThumbnail img2).width = 120 ∧
        (scaleImageToThumbnail img2).height = 80)) :=
  ⟨⟨by norm_num [img1], by norm_num [img1]⟩,
    claim2_scaler_correct img1 (by norm_num [img1]) (by norm_num [img1])⟩

/-- C9 counterexample: the scaler always emits width `THUMBNAIL_WIDTH =
120`, so the 4-by-4 test raster does not produce a 2-by-2 output, and
its scale factor is `4/120 = 1/30`, not `2`. -/
theorem claim9_counterexample :
    (scaleImageToThumbnail img4).width = 120 ∧
    ¬((scaleImageToThumbnail img4).width = 2 ∧
      (scaleImageToThumbnail img4).height = 2) ∧
    scaleFactorOf img4 ≠ 2 := by
  refine ⟨rfl, ?_, by decide⟩
  intro h
  exact absurd h.1 (by decide)

/-- C9 amended: the 4-by-4 raster with 16 distinct pixels scales to a
120-by-120 output with `scaleFactor = 1/30`; output pixel `(0,0)`
equals input pixel `(0,0)`, output pixel `(1,1)` also equals input
pixel `(0,0)` (not `(2,2)`), and input pixel `(2,2)` instead appears at
output pixel `(60,60)`. -/
theorem claim9_amended :
    (scaleImageToThumbnail img4).width = 120 ∧
    (scaleImageToThumbnail img4).height = 120 ∧
    scaleFactorOf img4 = 1 / 30 ∧
    (∀ c, c < 4 →
      (scaleImageToThumbnail img4).data.get? ((0 * 120 + 0) * 4 + c) =
        img4.data.get? ((0 * 4 + 0) * 4 + c)) ∧
    (∀ c, c < 4 →
      (scaleImageToThumbnail img4).data.get? ((1 * 120 + 1) * 4 + c) =
        img4.data.get? ((0 * 4 + 0) * 4 + c)) ∧
    (∀ c, c < 4 →
      (scaleImageToThumbnail img4).data.get? ((60 * 120 + 60) * 4 + c) =
        img4.data.get? ((2 * 4 + 2) * 4 + c)) := by
  have h120 : scaledHeightOf img4 = 120 := by decide
  refine ⟨rfl, h120, by decide, ?_, ?_, ?_⟩
  · intro c hc
    rw [scale_data_get img4 0 0 c (by norm_num) (by rw [h120]; norm_num) hc]
    interval_cases c <;> decide
  · intro c hc
    rw [scale_data_get img4 1 1 c (by norm_num) (by rw [h120]; norm_num) hc]
    interval_cases c <;> decide
  · intro c hc
    rw [scale_data_get img4 60 60 c (by norm_num) (by rw [h120]; norm_num) hc]
    interval_cases c <;> decide

/-- C1: for a timeline with at least one analyzed frame and a finite
`timelineEnd`, each bucket `i` in `1..9` selects the last analyzed
frame in timeline order whose timestamp is at most `targetTimestamp =
beginning + timelineEnd*i/10` (frames past the target are never
selected, however close), and bucket `10` always selects the
chronologically last analyzed frame, overriding the comparison. -/
theorem claim1_sampler (speedline : Speedline) (m : Option ℚ)
    (hne : analyzedOf speedline ≠ [])
    (hfin : JNum.jfinite (timelineEndOf speedline m) = true) :
    samplerSpec speedline m := by
  constructor
  · intro i h1 h9
    exact frameForTimestamp_eq_filter_getLast _ i _
      (by simp only [NUMBER_OF_THUMBNAILS]; omega)
  · exact frameForTimestamp_final _ _

/-- Witness for C1 at a concrete one-frame timeline. -/
theorem claim1_witness :
    (analyzedOf slOneFrame ≠ [] ∧
      JNum.jfinite (timelineEndOf slOneFrame none) = true) ∧
    samplerSpec slOneFrame none :=
  ⟨⟨by decide, by decide⟩, claim1_sampler slOneFrame none (by decide) (by decide)⟩

/-- Witness for C9's amended theorem: channel 0 of input pixel `(2,2)`
appears at output pixel `(60,60)`. -/
theorem claim9_witness :
    (0 : ℕ) < 4 ∧
    (scaleImageToThumbnail img4).data.get? ((60 * 120 + 60) * 4 + 0) =
      img4.data.get? ((2 * 4 + 2) * 4 + 0) :=
  ⟨by decide, claim9_amended.2.2.2.2.2 0 (by decide)⟩

theorem bucketStep_of_err (analyzedFrames : List Frame)
    (b tE : JNum) (enc : ImageData → String) (st : BuildState) (i : ℕ)
    (e : JSError) (h : st.err = some e) :
    bucketStep analyzedFrames b tE enc st i = st := by
  rw [bucketStep, if_pos (by rw [h]; rfl)]

theorem foldl_bucketStep_of_err (analyzedFrames : List Frame)
    (b tE : JNum) (enc : ImageData → String) (L : List ℕ)
    (st : BuildState) (e : JSError) (h : st.err = some e) :
    L.foldl (bucketStep analyzedFrames b tE enc) st = st := by
  induction L with
  | nil => rfl
  | cons i t ih =>
    rw [List.foldl_cons, bucketStep_of_err analyzedFrames b tE enc st i e h,
      ih]

theorem bucketStep_sel_none (analyzedFrames : List Frame)
    (b tE : JNum) (enc : ImageData → String) (st : BuildState) (i : ℕ)
    (hst : st.err = none)
    (hsel : frameForTimestamp analyzedFrames i (targetOf b tE i) = none) :
    bucketStep analyzedFrames b tE enc st i =
      { st with err := some JSError.typeErr } := by
  rw [bucketStep, if_neg (by rw [hst]; exact Bool.false_ne_true)]
  simp only [hsel]

theorem bucketStep_sel_hit (analyzedFrames : List Frame)
    (b tE : JNum) (enc : ImageData → String) (st : BuildState) (i : ℕ)
    (kf : ℕ × Frame) (bb : String)
    (hst : st.err = none)
    (hsel : frameForTimestamp analyzedFrames i (targetOf b tE i) = some kf)
    (hl : List.lookup kf.1 st.cache = some bb) (hbb : bb ≠ "") :
    bucketStep analyzedFrames b tE enc st i =
      { st with thumbnails :=
          st.thumbnails ++ [mkThumb (targetOf b tE i) b bb] } := by
  rw [bucketStep, if_neg (by rw [hst]; exact Bool.false_ne_true)]
  simp only [hsel, hl, if_neg hbb, hst]

theorem bucketStep_sel_miss (analyzedFrames : List Frame)
    (b tE : JNum) (enc : ImageData → String) (st : BuildState) (i : ℕ)
    (kf : ℕ × Frame)
    (hst : st.err = none)
    (hsel : frameForTimestamp analyzedFrames i (targetOf b tE i) = some kf)
    (hl : List.lookup kf.1 st.cache = none ∨
      List.lookup kf.1 st.cache = some "") :
    bucketStep analyzedFrames b tE enc st i =
      { cache := (kf.1,
          enc (scaleImageToThumbnail kf.2.getParsedImage)) :: st.cache
        thumbnails := st.thumbnails ++
          [mkThumb (targetOf b tE i) b
            (enc (scaleImageToThumbnail kf.2.getParsedImage))]
        encodeLog := st.encodeLog ++ [kf.1]
        err := none } := by
  rw [bucketStep, if_neg (by rw [hst]; exact Bool.false_ne_true)]
  rcases hl with hl | hl
  · simp only [hsel, hl]
  · have h0 : (if ("" : String) = "" then (none : Option String)
        else some "") = none := if_pos rfl
    simp only [hsel, hl, h0]
    rfl

theorem frameForTimestamp_mem (analyzedFrames : List Frame) (i : ℕ)
    (t : JNum) (kf : ℕ × Frame)
    (h : frameForTimestamp analyzedFrames i t = some kf) :
    analyzedFrames.get? kf.1 = some kf.2 := by
  have hmem : kf ∈ analyzedFrames.enum := by
    unfold frameForTimestamp at h
    by_cases hi : i = NUMBER_OF_THUMBNAILS
    · rw [if_pos hi] at h
      exact List.mem_of_getLast?_eq_some h
    · rw [if_neg hi, foldl_ifsome_eq, Option.or_none] at h
      exact List.mem_of_mem_filter (List.mem_of_getLast?_eq_some h)
  rw [List.get?_eq_getElem?]
  exact List.mem_enum_iff_getElem?.mp hmem

theorem foldl_thumbs (analyzedFrames : List Frame) (b tE : JNum)
    (enc : ImageData → String) (L : List ℕ) (st : BuildState)
    (hc : cacheConsistent analyzedFrames enc st.cache)
    (hst : st.err = none)
    (hfin : (L.foldl (bucketStep analyzedFrames b tE enc) st).err = none) :
    cacheConsistent analyzedFrames enc
      ((L.foldl (bucketStep analyzedFrames b tE enc) st).cache) ∧
    (L.foldl (bucketStep analyzedFrames b tE enc) st).thumbnails =
      st.thumbnails ++ L.map (specThumb analyzedFrames b tE enc) ∧
    ∀ i ∈ L, frameForTimestamp analyzedFrames i (targetOf b tE i) ≠ none := by
  induction L generalizing st with
  | nil =>
    refine ⟨hc, by simp, by simp⟩
  | cons i t ih =>
    rw [List.foldl_cons] at hfin ⊢
    cases hsel : frameForTimestamp analyzedFrames i (targetOf b tE i) with
    | none =>
      exfalso
      rw [bucketStep_sel_none analyzedFrames b tE enc st i hst hsel,
        foldl_bucketStep_of_err analyzedFrames b tE enc t _
          JSError.typeErr rfl] at hfin
      exact Option.noConfusion hfin
    | some kf =>
      have hkmem := frameForTimestamp_mem analyzedFrames i
        (targetOf b tE i) kf hsel
      by_cases hhit : ∃ bb, List.lookup kf.1 st.cache = some bb ∧ bb ≠ ""
      · obtain ⟨bb, hlk, hbb⟩ := hhit
        rw [bucketStep_sel_hit analyzedFrames b tE enc st i kf bb
          hst hsel hlk hbb] at hfin ⊢
        obtain ⟨hca, hth, hsl⟩ := ih { st with thumbnails :=
          st.thumbnails ++ [mkThumb (targetOf b tE i) b bb] } hc hst hfin
        obtain ⟨f, hgf, hbf⟩ := hc kf.1 bb hlk
        have hf : f = kf.2 := by
          rw [hgf] at hkmem
          injection hkmem
        have hspec : specThumb analyzedFrames b tE enc i =
            mkThumb (targetOf b tE i) b bb := by
          simp only [specThumb, hsel]
          rw [hbf, hf]
        refine ⟨hca, ?_, ?_⟩
        · rw [hth]
          simp [hspec]
        · intro i2 hi2
          rcases List.mem_cons.mp hi2 with h2 | h2
          · rw [h2, hsel]
            exact Option.noConfusion
          · exact hsl i2 h2
      · have horm : List.lookup kf.1 st.cache = none ∨
            List.lookup kf.1 st.cache = some "" := by
          push_neg at hhit
          rcases hl2 : List.lookup kf.1 st.cache with _ | bb
          · exact Or.inl rfl
          · exact Or.inr (by rw [hhit bb hl2])
        rw [bucketStep_sel_miss analyzedFrames b tE enc st i kf
          hst hsel horm] at hfin ⊢
        have hc2 : cacheConsistent analyzedFrames enc
            ((kf.1, enc (scaleImageToThumbnail kf.2.getParsedImage)) ::
              st.cache) := by
          intro k bv hlk2
          rw [List.lookup_cons] at hlk2
          by_cases hk : k = kf.1
          · simp only [hk, beq_self_eq_true] at hlk2
            refine ⟨kf.2, hk ▸ hkmem, ?_⟩
            injection hlk2 with h2
            exact h2.symm
          · have hbeq : (k == kf.1) = false := beq_eq_false_iff_ne.mpr hk
            simp only [hbeq] at hlk2
            exact hc k bv hlk2
        obtain ⟨hca, hth, hsl⟩ := ih
          ⟨(kf.1, enc (scaleImageToThumbnail kf.2.getParsedImage)) ::
              st.cache,
            st.thumbnails ++
              [mkThumb (targetOf b tE i) b
                (enc (scaleImageToThumbnail kf.2.getParsedImage))],
            st.encodeLog ++ [kf.1], none⟩ hc2 rfl hfin
        have hspec : specThumb analyzedFrames b tE enc i =
            mkThumb (targetOf b tE i) b
              (enc (scaleImageToThumbnail kf.2.getParsedImage)) := by
          simp only [specThumb, hsel]
        refine ⟨hca, ?_, ?_⟩
        · rw [hth]
          simp [hspec]
        · intro i2 hi2
          rcases List.mem_cons.mp hi2 with h2 | h2
          · rw [h2, hsel]
            exact Option.noConfusion
          · exact hsl i2 h2

theorem runBuckets_ok (analyzedFrames : List Frame) (b tE : JNum)
    (enc : ImageData → String)
    (hfin : (runBuckets analyzedFrames b tE enc).err = none) :
    cacheConsistent analyzedFrames enc
      (runBuckets analyzedFrames b tE enc).cache ∧
    (runBuckets analyzedFrames b tE enc).thumbnails =
      (List.range' 1 NUMBER_OF_THUMBNAILS).map
        (specThumb analyzedFrames b tE enc) ∧
    ∀ i ∈ List.range' 1 NUMBER_OF_THUMBNAILS,
      frameForTimestamp analyzedFrames i (targetOf b tE i) ≠ none := by
  have h := foldl_thumbs analyzedFrames b tE enc
    (List.range' 1 NUMBER_OF_THUMBNAILS)
    { cache := [], thumbnails := [], encodeLog := [], err := none }
    (fun k bv hx => absurd hx (by simp)) rfl hfin
  simpa using h

/-- C8: on success, the product carries score 1 and `filmstrip` details
scaled by `timelineEnd`, whose items are assembled in bucket order,
each with `timing = round(targetTimestamp - beginning)`, `timestamp =
targetTimestamp * 1000`, and `data` equal to the string
`data:image/jpeg;base64,` followed by the base64 payload encoded from
the selected frame's scaled raster (the fields of `mkThumb`). -/
theorem claim8_assembly (speedline : Speedline) (m : Option ℚ)
    (enc : ImageData → String) (p : AuditProduct)
    (h : auditCore speedline m enc = Except.ok p) :
    assemblySpec speedline m enc p := by
  simp only [auditCore] at h
  rcases hb : ((analyzedOf speedline).isEmpty ||
      !(JNum.jfinite (timelineEndOf speedline m))) with _ | _
  · rw [hb] at h
    rw [if_neg Bool.false_ne_true] at h
    cases herr : (runBuckets (analyzedOf speedline) speedline.beginning
        (timelineEndOf speedline m) enc).err with
    | some e =>
      rw [herr] at h
      exact absurd h (by simp)
    | none =>
      rw [herr] at h
      obtain ⟨hca, hth, hsl⟩ := runBuckets_ok (analyzedOf speedline)
        speedline.beginning (timelineEndOf speedline m) enc herr
      have hp : p = ⟨1, false, some ⟨"filmstrip", timelineEndOf speedline m,
          (runBuckets (analyzedOf speedline) speedline.beginning
            (timelineEndOf speedline m) enc).thumbnails⟩⟩ :=
        (Except.ok.inj h).symm
      rw [hp, hth]
      refine ⟨rfl, rfl, rfl, ?_⟩
      intro i hi
      cases hsel : frameForTimestamp (analyzedOf speedline) i
          (targetOf speedline.beginning (timelineEndOf speedline m) i) with
      | none => exact absurd hsel (hsl i hi)
      | some kf =>
        exact ⟨kf, rfl, by simp only [specThumb, hsel]⟩
  · rw [hb] at h
    rw [if_pos rfl] at h
    exact absurd h (by simp)

/-- Witness for C8 at a concrete one-frame timeline. -/
theorem claim8_witness :
    auditCore slOneFrame none encX =
      Except.ok (okOr (auditCore slOneFrame none encX)
        { score := 0, notApplicable := false, details := none }) ∧
    assemblySpec slOneFrame none encX
      (okOr (auditCore slOneFrame none encX)
        { score := 0, notApplicable := false, details := none }) :=
  ⟨by decide, claim8_assembly slOneFrame none encX _ (by decide)⟩

theorem bucketStep_err_cases (analyzedFrames : List Frame) (b tE : JNum)
    (enc : ImageData → String) (st : BuildState) (i : ℕ) :
    (bucketStep analyzedFrames b tE enc st i).err = st.err ∨
    (bucketStep analyzedFrames b tE enc st i).err = some JSError.typeErr := by
  rcases hst : st.err with _ | e
  · cases hsel : frameForTimestamp analyzedFrames i (targetOf b tE i) with
    | none =>
      right
      rw [bucketStep_sel_none analyzedFrames b tE enc st i hst hsel]
    | some kf =>
      by_cases hhit : ∃ bb, List.lookup kf.1 st.cache = some bb ∧ bb ≠ ""
      · obtain ⟨bb, hlk, hbb⟩ := hhit
        left
        rw [bucketStep_sel_hit analyzedFrames b tE enc st i kf bb
          hst hsel hlk hbb]
        exact hst
      · have horm : List.lookup kf.1 st.cache = none ∨
            List.lookup kf.1 st.cache = some "" := by
          push_neg at hhit
          rcases hl2 : List.lookup kf.1 st.cache with _ | bb
          · exact Or.inl rfl
          · exact Or.inr (by rw [hhit bb hl2])
        left
        rw [bucketStep_sel_miss analyzedFrames b tE enc st i kf
          hst hsel horm]
  · left
    rw [bucketStep_of_err analyzedFrames b tE enc st i e hst]
    exact hst

theorem runBuckets_err_cases (analyzedFrames : List Frame) (b tE : JNum)
    (enc : ImageData → String) :
    (runBuckets analyzedFrames b tE enc).err = none ∨
    (runBuckets analyzedFrames b tE enc).err = some JSError.typeErr := by
  suffices h : ∀ (L : List ℕ) (st : BuildState),
      st.err = none ∨ st.err = some JSError.typeErr →
      (L.foldl (bucketStep analyzedFrames b tE enc) st).err = none ∨
      (L.foldl (bucketStep analyzedFrames b tE enc) st).err =
        some JSError.typeErr by
    exact h (List.range' 1 NUMBER_OF_THUMBNAILS)
      { cache := [], thumbnails := [], encodeLog := [], err := none }
      (Or.inl rfl)
  intro L
  induction L with
  | nil => intro st h; exact h
  | cons i t ih =>
    intro st h
    rw [List.foldl_cons]
    apply ih
    rcases bucketStep_err_cases analyzedFrames b tE enc st i with h1 | h1
    · rw [h1]; exact h
    · exact Or.inr h1

/-- C7: the build fails with `INVALID_SPEEDLINE` exactly when the
analyzed-frame set is empty or the computed `timelineEnd` is not
finite, and under that condition the failure happens before any scaling
or encoding work: the result does not depend on the encoder at all. -/
theorem claim7_invalid_timeline (speedline : Speedline) (m : Option ℚ)
    (enc : ImageData → String) :
    (auditCore speedline m enc =
        Except.error (JSError.lighthouseErr "INVALID_SPEEDLINE") ↔
      (analyzedOf speedline = [] ∨
        JNum.jfinite (timelineEndOf speedline m) = false)) ∧
    ((analyzedOf speedline = [] ∨
        JNum.jfinite (timelineEndOf speedline m) = false) →
      ∀ enc2 : ImageData → String,
        auditCore speedline m enc = auditCore speedline m enc2) := by
  have hguard : ∀ enc3 : ImageData → String,
      (analyzedOf speedline = [] ∨
        JNum.jfinite (timelineEndOf speedline m) = false) →
      auditCore speedline m enc3 =
        Except.error (JSError.lighthouseErr "INVALID_SPEEDLINE") := by
    intro enc3 hcond
    simp only [auditCore]
    have hb : ((analyzedOf speedline).isEmpty ||
        !(JNum.jfinite (timelineEndOf speedline m))) = true := by
      rcases hcond with hc1 | hc1
      · simp [List.isEmpty_iff, hc1]
      · simp [hc1]
    rw [hb, if_pos rfl]
  constructor
  · constructor
    · intro h
      by_contra hcond
      push_neg at hcond
      obtain ⟨hc1, hc2⟩ := hcond
      have hb : ((analyzedOf speedline).isEmpty ||
          !(JNum.jfinite (timelineEndOf speedline m))) = false := by
        have h1 : (analyzedOf speedline).isEmpty = false :=
          List.isEmpty_eq_false.mpr hc1
        have h2 : JNum.jfinite (timelineEndOf speedline m) = true := by
          cases h3 : JNum.jfinite (timelineEndOf speedline m)
          · exact absurd h3 hc2
          · rfl
        rw [h1, h2]
        rfl
      simp only [auditCore] at h
      rw [hb, if_neg Bool.false_ne_true] at h
      rcases runBuckets_err_cases (analyzedOf speedline)
          speedline.beginning (timelineEndOf speedline m) enc with he | he
      · rw [he] at h
        exact absurd h (by simp)
      · rw [he] at h
        simp only [Except.error.injEq] at h
        exact JSError.noConfusion h
    · exact hguard enc
  · intro hcond enc2
    rw [hguard enc hcond, hguard enc2 hcond]

/-- Witness for C7 at an all-interpolated timeline. -/
theorem claim7_witness :
    (analyzedOf slAllInterpolated = [] ∨
      JNum.jfinite (timelineEndOf slAllInterpolated none) = false) ∧
    auditCore slAllInterpolated none encX =
      Except.error (JSError.lighthouseErr "INVALID_SPEEDLINE") :=
  ⟨Or.inl (by decide),
    (claim7_invalid_timeline slAllInterpolated none encX).1.mpr
      (Or.inl (by decide))⟩

/-- C3: every error thrown during the build resolves to
`{notApplicable: true, score: 1}` exactly when its code is one of the
four no-frames codes and the gather mode is `timespan`; every other
error, and any error in `navigation` mode, propagates to the caller
unchanged. -/
theorem claim3_error_classifier (speedlineOutcome : Except JSError Speedline)
    (m : Option ℚ) (enc : ImageData → String) (gatherMode : GatherMode)
    (err : JSError)
    (h : auditInner speedlineOutcome m enc = Except.error err) :
    audit speedlineOutcome m enc gatherMode =
      if errInNoFramesSet err = true ∧ gatherMode = GatherMode.timespan then
        Except.ok { score := 1, notApplicable := true, details := none }
      else Except.error err := by
  simp only [audit, h]
  by_cases h1 : errInNoFramesSet err = true
  · by_cases h2 : gatherMode = GatherMode.timespan
    · have hb : (errInNoFramesSet err &&
          (gatherMode == GatherMode.timespan)) = true := by
        rw [h1, h2]
        rfl
      rw [hb, if_pos rfl, if_pos ⟨h1, h2⟩]
    · have hb : (errInNoFramesSet err &&
          (gatherMode == GatherMode.timespan)) = false := by
        cases gatherMode
        · rw [h1]
          rfl
        · exact absurd rfl h2
      rw [hb, if_neg Bool.false_ne_true, if_neg (fun hc => h2 hc.2)]
  · have h3 : errInNoFramesSet err = false := by
      cases h4 : errInNoFramesSet err
      · rfl
      · exact absurd h4 h1
    have hb : (errInNoFramesSet err &&
        (gatherMode == GatherMode.timespan)) = false := by
      rw [h3]
      rfl
    rw [hb, if_neg Bool.false_ne_true, if_neg (fun hc => h1 hc.1)]

/-- Witness for C3: a `NO_SCREENSHOTS` failure in `timespan` mode. -/
theorem claim3_witness :
    auditInner (Except.error (JSError.lighthouseErr "NO_SCREENSHOTS"))
        none encX =
      Except.error (JSError.lighthouseErr "NO_SCREENSHOTS") ∧
    audit (Except.error (JSError.lighthouseErr "NO_SCREENSHOTS"))
        none encX GatherMode.timespan =
      (if errInNoFramesSet (JSError.lighthouseErr "NO_SCREENSHOTS") = true ∧
          GatherMode.timespan = GatherMode.timespan then
        Except.ok { score := 1, notApplicable := true, details := none }
      else Except.error (JSError.lighthouseErr "NO_SCREENSHOTS")) :=
  ⟨rfl, claim3_error_classifier
    (Except.error (JSError.lighthouseErr "NO_SCREENSHOTS")) none encX
    GatherMode.timespan (JSError.lighthouseErr "NO_SCREENSHOTS") rfl⟩

/-- C6 counterexample: `complete = 0` is non-null, yet the code's `||`
treats it as falsy and falls back to the frame maximum: with a frame
5000ms after the beginning and the default minimum, `timelineEnd` is
`5000`, not `max(0, 3000) = 3000` as the claim's reading implies. -/
theorem claim6_counterexample :
    slCompleteZero.complete = some (JNum.num 0) ∧
    timelineEndOf slCompleteZero none = JNum.num 5000 ∧
    timelineEndOf slCompleteZero none ≠
      JNum.jmax (JNum.num 0) (JNum.num (minDurVal none)) := by
  refine ⟨rfl, by decide, by decide⟩

/-- C6 amended: `timelineEnd = max(maxFrameTime, minimumDuration)`,
where `maxFrameTime` is `completion` when `completion` is non-null
**and truthy** (neither `0` nor `NaN`), and otherwise — `completion`
absent, or non-null but falsy — the maximum over all frames of
`timestamp - beginning`; with the default minimum, `completion = null`
and maximum relative frame time 1500ms give `timelineEnd = 3000`, and
`completion = 5000` gives `5000`. -/
theorem claim6_amended (speedline : Speedline) (m : Option ℚ) :
    timelineEndOf speedline m =
      JNum.jmax (maxFrameTimeOf speedline) (JNum.num (minDurVal m)) ∧
    (∀ c, speedline.complete = some c → JNum.jtruthy c = true →
      maxFrameTimeOf speedline = c) ∧
    (speedline.complete = none →
      maxFrameTimeOf speedline =
        JNum.jMaxList (speedline.frames.map
          (fun f => JNum.jsub f.timestamp speedline.beginning))) ∧
    (∀ c, speedline.complete = some c → JNum.jtruthy c = false →
      maxFrameTimeOf speedline =
        JNum.jMaxList (speedline.frames.map
          (fun f => JNum.jsub f.timestamp speedline.beginning))) ∧
    timelineEndOf slRel1500 none = JNum.num 3000 ∧
    timelineEndOf slComplete5000 none = JNum.num 5000 := by
  refine ⟨rfl, ?_, ?_, ?_, by decide, by decide⟩
  · intro c hc htr
    simp only [maxFrameTimeOf, jsOr, hc]
    rw [if_pos htr]
  · intro hc
    simp only [maxFrameTimeOf, jsOr, hc]
  · intro c hc htr
    simp only [maxFrameTimeOf, jsOr, hc]
    rw [if_neg (by rw [htr]; exact Bool.false_ne_true)]

/-- Witness for C6's amended theorem: a truthy non-null completion is
taken as `maxFrameTime`, and a non-null falsy completion (`0`) falls
back to the frame maximum. -/
theorem claim6_witness :
    ((slComplete5000.complete = some (JNum.num 5000) ∧
      JNum.jtruthy (JNum.num 5000) = true) ∧
      maxFrameTimeOf slComplete5000 = JNum.num 5000) ∧
    ((slCompleteZero.complete = some (JNum.num 0) ∧
      JNum.jtruthy (JNum.num 0) = false) ∧
      maxFrameTimeOf slCompleteZero =
        JNum.jMaxList (slCompleteZero.frames.map
          (fun f => JNum.jsub f.timestamp slCompleteZero.beginning))) :=
  ⟨⟨⟨rfl, by decide⟩,
    (claim6_amended slComplete5000 none).2.1 (JNum.num 5000) rfl (by decide)⟩,
   ⟨⟨rfl, by decide⟩,
    (claim6_amended slCompleteZero none).2.2.2.1 (JNum.num 0) rfl
      (by decide)⟩⟩

/-- C10 counterexample: with a single analyzed frame whose timestamp is
`NaN` and `complete = Infinity`, no analyzed frame satisfies the first
bucket's comparison, yet the build does not fail by a null
dereference: `timelineEnd` is not finite, so `INVALID_SPEEDLINE` is
thrown first, and in `timespan` mode it degrades to
`{notApplicable: true, score: 1}` instead of propagating. -/
theorem claim10_counterexample :
    analyzedOf slNanFrame ≠ [] ∧
    (∀ f ∈ analyzedOf slNanFrame,
      JNum.jle f.timestamp (targetOf slNanFrame.beginning
        (timelineEndOf slNanFrame none) 1) = false) ∧
    audit (Except.ok slNanFrame) none encX GatherMode.timespan =
      Except.ok { score := 1, notApplicable := true, details := none } := by
  refine ⟨by decide, by decide, by decide⟩

/-- C10 amended: when the timeline has at least one analyzed frame, the
computed `timelineEnd` **is finite**, and no analyzed frame's timestamp
is at most the first bucket's target, then bucket 1 selects no frame,
the build fails with the `TypeError` of dereferencing `null`, and that
error carries no classified code, so it propagates in every gather
mode, including `timespan`. -/
theorem claim10_amended (speedline : Speedline) (m : Option ℚ)
    (enc : ImageData → String)
    (hne : analyzedOf speedline ≠ [])
    (hfin : JNum.jfinite (timelineEndOf speedline m) = true)
    (hnosel : ∀ f ∈ analyzedOf speedline,
      JNum.jle f.timestamp (targetOf speedline.beginning
        (timelineEndOf speedline m) 1) = false) :
    frameForTimestamp (analyzedOf speedline) 1
        (targetOf speedline.beginning (timelineEndOf speedline m) 1) =
      none ∧
    auditCore speedline m enc = Except.error JSError.typeErr ∧
    ∀ gatherMode, audit (Except.ok speedline) m enc gatherMode =
      Except.error JSError.typeErr := by
  have hsel : frameForTimestamp (analyzedOf speedline) 1
      (targetOf speedline.beginning (timelineEndOf speedline m) 1) =
        none := by
    have hch := frameForTimestamp_eq_filter_getLast (analyzedOf speedline) 1
      (targetOf speedline.beginning (timelineEndOf speedline m) 1)
      (by simp [NUMBER_OF_THUMBNAILS])
    have hfil : (analyzedOf speedline).filter
        (fun f => JNum.jle f.timestamp (targetOf speedline.beginning
          (timelineEndOf speedline m) 1)) = [] :=
      List.filter_eq_nil_iff.mpr
        (fun f hf => by rw [hnosel f hf]; exact Bool.false_ne_true)
    rw [hfil] at hch
    exact Option.map_eq_none'.mp hch
  have hcore : auditCore speedline m enc = Except.error JSError.typeErr := by
    simp only [auditCore]
    have hb : ((analyzedOf speedline).isEmpty ||
        !(JNum.jfinite (timelineEndOf speedline m))) = false := by
      rw [List.isEmpty_eq_false.mpr hne, hfin]
      rfl
    rw [hb, if_neg Bool.false_ne_true]
    have hrun : (runBuckets (analyzedOf speedline) speedline.beginning
        (timelineEndOf speedline m) enc).err = some JSError.typeErr := by
      unfold runBuckets
      have hrange : List.range' 1 NUMBER_OF_THUMBNAILS =
          1 :: List.range' 2 9 := rfl
      rw [hrange, List.foldl_cons,
        bucketStep_sel_none (analyzedOf speedline) speedline.beginning
          (timelineEndOf speedline m) enc _ 1 rfl hsel,
        foldl_bucketStep_of_err (analyzedOf speedline) speedline.beginning
          (timelineEndOf speedline m) enc _ _ JSError.typeErr rfl]
    rw [hrun]
  refine ⟨hsel, hcore, ?_⟩
  intro gatherMode
  simp only [audit, auditInner, hcore]
  rfl

/-- Witness for C10's amended theorem: a single analyzed frame far past
every bucket target. -/
theorem claim10_witness :
    (analyzedOf slLateFrame ≠ [] ∧
      JNum.jfinite (timelineEndOf slLateFrame none) = true ∧
      (∀ f ∈ analyzedOf slLateFrame,
        JNum.jle f.timestamp (targetOf slLateFrame.beginning
          (timelineEndOf slLateFrame none) 1) = false)) ∧
    auditCore slLateFrame none encX = Except.error JSError.typeErr :=
  ⟨⟨by decide, by decide, by decide⟩,
    (claim10_amended slLateFrame none encX (by decide) (by decide)
      (by decide)).2.1⟩

theorem foldl_encodeLog (analyzedFrames : List Frame) (b tE : JNum)
    (enc : ImageData → String) (hne2 : ∀ imgd, enc imgd ≠ "")
    (L : List ℕ) (st : BuildState)
    (hnd : st.encodeLog.Nodup)
    (hiff : ∀ k, k ∈ st.encodeLog ↔
      ∃ bb, List.lookup k st.cache = some bb)
    (hnem : ∀ k bb, List.lookup k st.cache = some bb → bb ≠ "")
    (hst : st.err = none)
    (hfin : (L.foldl (bucketStep analyzedFrames b tE enc) st).err = none) :
    (L.foldl (bucketStep analyzedFrames b tE enc) st).encodeLog.Nodup ∧
    ∀ k, k ∈ (L.foldl (bucketStep analyzedFrames b tE enc) st).encodeLog ↔
      (k ∈ st.encodeLog ∨ ∃ i ∈ L, ∃ f,
        frameForTimestamp analyzedFrames i (targetOf b tE i) =
          some (k, f)) := by
  induction L generalizing st with
  | nil =>
    refine ⟨hnd, fun k => ?_⟩
    simp
  | cons i t ih =>
    rw [List.foldl_cons] at hfin ⊢
    cases hsel : frameForTimestamp analyzedFrames i (targetOf b tE i) with
    | none =>
      exfalso
      rw [bucketStep_sel_none analyzedFrames b tE enc st i hst hsel,
        foldl_bucketStep_of_err analyzedFrames b tE enc t _
          JSError.typeErr rfl] at hfin
      exact Option.noConfusion hfin
    | some kf =>
      rcases hlk : List.lookup kf.1 st.cache with _ | bb
      · -- cache miss: the encoder runs and the log grows by kf.1
        rw [bucketStep_sel_miss analyzedFrames b tE enc st i kf
          hst hsel (Or.inl hlk)] at hfin ⊢
        have hnotin : kf.1 ∉ st.encodeLog := fun hmem => by
          obtain ⟨bb, hbb⟩ := (hiff kf.1).mp hmem
          rw [hlk] at hbb
          exact Option.noConfusion hbb
        have hnd2 : (st.encodeLog ++ [kf.1]).Nodup := by
          rw [List.nodup_append]
          exact ⟨hnd, List.nodup_singleton kf.1,
            List.disjoint_singleton.mpr hnotin⟩
        have hiff2 : ∀ k, k ∈ st.encodeLog ++ [kf.1] ↔
            ∃ bb, List.lookup k
              ((kf.1, enc (scaleImageToThumbnail kf.2.getParsedImage)) ::
                st.cache) = some bb := by
          intro k
          rw [List.mem_append, List.mem_singleton, List.lookup_cons]
          by_cases hk : k = kf.1
          · have hbeq : (k == kf.1) = true := beq_iff_eq.mpr hk
            simp [hbeq, hk]
          · have hbeq : (k == kf.1) = false := beq_eq_false_iff_ne.mpr hk
            simp only [hbeq, hk, or_false]
            exact hiff k
        have hnem2 : ∀ k bb, List.lookup k
            ((kf.1, enc (scaleImageToThumbnail kf.2.getParsedImage)) ::
              st.cache) = some bb → bb ≠ "" := by
          intro k bb hbk
          rw [List.lookup_cons] at hbk
          by_cases hk : k = kf.1
          · have hbeq : (k == kf.1) = true := beq_iff_eq.mpr hk
            simp only [hbeq] at hbk
            injection hbk with hbk2
            rw [← hbk2]
            exact hne2 _
          · have hbeq : (k == kf.1) = false := beq_eq_false_iff_ne.mpr hk
            simp only [hbeq] at hbk
            exact hnem k bb hbk
        obtain ⟨hnd3, hiff3⟩ := ih
          ⟨(kf.1, enc (scaleImageToThumbnail kf.2.getParsedImage)) ::
              st.cache,
            st.thumbnails ++
              [mkThumb (targetOf b tE i) b
                (enc (scaleImageToThumbnail kf.2.getParsedImage))],
            st.encodeLog ++ [kf.1], none⟩ hnd2 hiff2 hnem2 rfl hfin
        refine ⟨hnd3, fun k => ?_⟩
        rw [hiff3 k]
        constructor
        · rintro (hk | hk)
          · rcases List.mem_append.mp hk with hk2 | hk2
            · exact Or.inl hk2
            · rw [List.mem_singleton] at hk2
              exact Or.inr ⟨i, List.mem_cons_self i t,
                kf.2, by rw [hsel, hk2]⟩
          · obtain ⟨i2, hi2, f2, hf2⟩ := hk
            exact Or.inr ⟨i2, List.mem_cons_of_mem i hi2, f2, hf2⟩
        · rintro (hk | hk)
          · exact Or.inl (List.mem_append_left _ hk)
          · obtain ⟨i2, hi2, f2, hf2⟩ := hk
            rcases List.mem_cons.mp hi2 with hi3 | hi3
            · rw [hi3] at hf2
              rw [hf2] at hsel
              have hfst : kf.1 = k := by
                injection hsel with h2
                rw [← h2]
              exact Or.inl (List.mem_append_right _
                (List.mem_singleton.mpr hfst.symm))
            · exact Or.inr ⟨i2, hi3, f2, hf2⟩
      · -- cache hit (nonempty by the invariant): nothing is encoded
        have hbb : bb ≠ "" := hnem kf.1 bb hlk
        rw [bucketStep_sel_hit analyzedFrames b tE enc st i kf bb
          hst hsel hlk hbb] at hfin ⊢
        obtain ⟨hnd3, hiff3⟩ := ih { st with thumbnails :=
          st.thumbnails ++ [mkThumb (targetOf b tE i) b bb] }
          hnd hiff hnem hst hfin
        refine ⟨hnd3, fun k => ?_⟩
        rw [hiff3 k]
        constructor
        · rintro (hk | hk)
          · exact Or.inl hk
          · obtain ⟨i2, hi2, f2, hf2⟩ := hk
            exact Or.inr ⟨i2, List.mem_cons_of_mem i hi2, f2, hf2⟩
        · rintro (hk | hk)
          · exact Or.inl hk
          · obtain ⟨i2, hi2, f2, hf2⟩ := hk
            rcases List.mem_cons.mp hi2 with hi3 | hi3
            · rw [hi3] at hf2
              rw [hf2] at hsel
              have hfst : kf.1 = k := by
                injection hsel with h2
                rw [← h2]
              exact Or.inl ((hiff k).mpr ⟨bb, by rw [← hfst]; exact hlk⟩)
            · exact Or.inr ⟨i2, hi3, f2, hf2⟩

/-- C4: within one build whose encoder never produces an empty payload
(real JPEG encodings are never empty), each distinct selected frame is
encoded at most once: the encoder-invocation log has no duplicates, and
its entries are exactly the positions of the frames selected by at
least one bucket. -/
theorem claim4_encode_once (speedline : Speedline) (m : Option ℚ)
    (enc : ImageData → String)
    (hne2 : ∀ imgd, enc imgd ≠ "")
    (hok : (runBuckets (analyzedOf speedline) speedline.beginning
      (timelineEndOf speedline m) enc).err = none) :
    encodeOnceSpec speedline m enc := by
  have h := foldl_encodeLog (analyzedOf speedline) speedline.beginning
    (timelineEndOf speedline m) enc hne2
    (List.range' 1 NUMBER_OF_THUMBNAILS)
    { cache := [], thumbnails := [], encodeLog := [], err := none }
    List.nodup_nil
    (fun k => by simp)
    (fun k bb hx => absurd hx (by simp))
    rfl hok
  obtain ⟨hnd, hiff⟩ := h
  unfold encodeOnceSpec runBuckets
  refine ⟨hnd, fun k => ?_⟩
  rw [hiff k]
  simp

/-- Witness for C4 at a concrete one-frame timeline with a nonempty
constant encoder. -/
theorem claim4_witness :
    ((∀ imgd, encX imgd ≠ "") ∧
      (runBuckets (analyzedOf slOneFrame) slOneFrame.beginning
        (timelineEndOf slOneFrame none) encX).err = none) ∧
    encodeOnceSpec slOneFrame none encX :=
  ⟨⟨fun _ => by simp [encX], by decide⟩,
    claim4_encode_once slOneFrame none encX (fun _ => by simp [encX])
      (by decide)⟩

theorem floor_lt_floor {x y : ℚ} (h : x + 1 ≤ y) : ⌊x⌋ < ⌊y⌋ := by
  have h1 : ⌊x⌋ + 1 ≤ ⌊y⌋ := by
    rw [← Int.floor_add_one]
    exact Int.floor_mono h
  omega

theorem timelineEnd_ge (speedline : Speedline) (m : Option ℚ) (t : ℚ)
    (h : timelineEndOf speedline m = JNum.num t) : minDurVal m ≤ t := by
  unfold timelineEndOf JNum.jmax at h
  rcases hmf : maxFrameTimeOf speedline with q | _ | _ | _ <;> rw [hmf] at h
  · rw [if_neg (by simp)] at h
    by_cases hle : JNum.jle (JNum.num q) (JNum.num (minDurVal m)) = true
    · rw [if_pos hle] at h
      injection h with h2
      exact le_of_eq h2
    · rw [if_neg hle] at h
      injection h with h2
      have hq : ¬(q ≤ minDurVal m) := by
        simpa [JNum.jle] using hle
      rw [← h2]
      linarith
  · rw [if_neg (by simp)] at h
    rw [if_neg (by simp [JNum.jle])] at h
    exact JNum.noConfusion h
  · rw [if_neg (by simp)] at h
    rw [if_pos (by simp [JNum.jle])] at h
    injection h with h2
    exact le_of_eq h2
  · rw [if_pos (Or.inl rfl)] at h
    exact JNum.noConfusion h

theorem jround_target (b t : ℚ) (i : ℕ) :
    JNum.jround (JNum.jsub (targetOf (JNum.num b) (JNum.num t) i)
      (JNum.num b)) =
    JNum.num ((⌊t * (i : ℚ) / 10 + 1 / 2⌋ : ℤ) : ℚ) := by
  have h10 : ((NUMBER_OF_THUMBNAILS : ℕ) : ℚ) ≠ 0 := by
    norm_num [NUMBER_OF_THUMBNAILS]
  simp only [targetOf, JNum.jmul, JNum.jdiv, JNum.jadd, JNum.jsub,
    JNum.jround, if_neg h10]
  have harg : b + t * (i : ℚ) / ((NUMBER_OF_THUMBNAILS : ℕ) : ℚ) - b +
      1 / 2 = t * (i : ℚ) / 10 + 1 / 2 := by
    simp only [NUMBER_OF_THUMBNAILS, Nat.cast_ofNat]
    ring
  rw [harg]

/-- C5 counterexample: a timeline whose `beginning` is `Infinity` with a
truthy finite `complete` passes the guard and succeeds with 10
thumbnails, but every target timestamp is `Infinity`, so every `timing`
is `round(Infinity - Infinity) = NaN` and the timings are not strictly
ascending. -/
theorem claim5_counterexample :
    analyzedOf slInfBeginning ≠ [] ∧
    isOkE (auditCore slInfBeginning none encX) = true ∧
    (itemsOf (auditCore slInfBeginning none encX)).length = 10 ∧
    ¬ strictlyAscending
      ((itemsOf (auditCore slInfBeginning none encX)).map
        Thumbnail.timing) := by
  refine ⟨by decide, by decide, by decide, by decide⟩

/-- C5 amended: for every timeline with a **finite beginning** and at
least one analyzed frame, under the default minimum timeline duration,
a successful build contains exactly 10 thumbnails whose timings are
strictly ascending. -/
theorem claim5_amended (speedline : Speedline) (enc : ImageData → String)
    (hne : analyzedOf speedline ≠ [])
    (hbfin : JNum.jfinite speedline.beginning = true)
    (hok : isOkE (auditCore speedline none enc) = true) :
    (itemsOf (auditCore speedline none enc)).length =
      NUMBER_OF_THUMBNAILS ∧
    strictlyAscending ((itemsOf (auditCore speedline none enc)).map
      Thumbnail.timing) := by
  obtain ⟨b, hbv⟩ : ∃ b, speedline.beginning = JNum.num b := by
    cases hb2 : speedline.beginning
    · exact ⟨_, rfl⟩
    · rw [hb2] at hbfin
      exact absurd hbfin (by simp [JNum.jfinite])
    · rw [hb2] at hbfin
      exact absurd hbfin (by simp [JNum.jfinite])
    · rw [hb2] at hbfin
      exact absurd hbfin (by simp [JNum.jfinite])
  rcases hguard : ((analyzedOf speedline).isEmpty ||
      !(JNum.jfinite (timelineEndOf speedline none))) with _ | _
  · rcases runBuckets_err_cases (analyzedOf speedline) speedline.beginning
        (timelineEndOf speedline none) enc with herr | herr
    · -- the successful path
      have hcore : auditCore speedline none enc = Except.ok
          ⟨1, false, some ⟨"filmstrip", timelineEndOf speedline none,
            (runBuckets (analyzedOf speedline) speedline.beginning
              (timelineEndOf speedline none) enc).thumbnails⟩⟩ := by
        simp only [auditCore]
        rw [hguard, if_neg Bool.false_ne_true, herr]
      obtain ⟨hca, hth, hsl⟩ := runBuckets_ok (analyzedOf speedline)
        speedline.beginning (timelineEndOf speedline none) enc herr
      have hitems : itemsOf (auditCore speedline none enc) =
          (List.range' 1 NUMBER_OF_THUMBNAILS).map
            (specThumb (analyzedOf speedline) speedline.beginning
              (timelineEndOf speedline none) enc) := by
        rw [hcore, itemsOf, hth]
      obtain ⟨t, htv⟩ : ∃ t, timelineEndOf speedline none = JNum.num t := by
        have hf2 : JNum.jfinite (timelineEndOf speedline none) = true := by
          rcases Bool.or_eq_false_iff.mp hguard with ⟨h1, h2⟩
          cases h3 : JNum.jfinite (timelineEndOf speedline none)
          · rw [h3] at h2
            exact absurd h2 (by simp)
          · rfl
        cases ht2 : timelineEndOf speedline none
        · exact ⟨_, rfl⟩
        · rw [ht2] at hf2
          exact absurd hf2 (by simp [JNum.jfinite])
        · rw [ht2] at hf2
          exact absurd hf2 (by simp [JNum.jfinite])
        · rw [ht2] at hf2
          exact absurd hf2 (by simp [JNum.jfinite])
      have hge : (3000 : ℚ) ≤ t := timelineEnd_ge speedline none t htv
      have hmap : ((itemsOf (auditCore speedline none enc)).map
          Thumbnail.timing) =
          (List.range' 1 NUMBER_OF_THUMBNAILS).map
            (fun (i : ℕ) =>
              JNum.num ((⌊t * (i : ℚ) / 10 + 1 / 2⌋ : ℤ) : ℚ)) := by
        rw [hitems, List.map_map]
        apply List.map_congr_left
        intro i hi
        cases hsel : frameForTimestamp (analyzedOf speedline) i
            (targetOf speedline.beginning
              (timelineEndOf speedline none) i) with
        | none => exact absurd hsel (hsl i hi)
        | some kf =>
          show Thumbnail.timing (specThumb (analyzedOf speedline)
            speedline.beginning (timelineEndOf speedline none) enc i) = _
          simp only [specThumb, hsel, mkThumb]
          rw [hbv, htv]
          exact jround_target b t i
      refine ⟨?_, ?_⟩
      · rw [hitems, List.length_map, List.length_range']
      · rw [hmap]
        have hr : List.range' 1 NUMBER_OF_THUMBNAILS =
            [1, 2, 3, 4, 5, 6, 7, 8, 9, 10] := rfl
        rw [hr]
        simp only [List.map_cons, List.map_nil]
        simp only [strictlyAscending, List.chain'_cons,
          List.chain'_singleton, and_true, JNum.jlt, decide_eq_true_eq]
        refine ⟨?_, ?_, ?_, ?_, ?_, ?_, ?_, ?_, ?_⟩ <;>
          (rw [Int.cast_lt]; apply floor_lt_floor; push_cast; linarith)
    · exfalso
      have hcore : auditCore speedline none enc =
          Except.error JSError.typeErr := by
        simp only [auditCore]
        rw [hguard, if_neg Bool.false_ne_true, herr]
      rw [hcore] at hok
      exact absurd hok (by simp [isOkE])
  · exfalso
    have hcore : auditCore speedline none enc =
        Except.error (JSError.lighthouseErr "INVALID_SPEEDLINE") := by
      simp only [auditCore]
      rw [hguard, if_pos rfl]
    rw [hcore] at hok
    exact absurd hok (by simp [isOkE])

/-- Witness for C5's amended theorem at a concrete one-frame timeline. -/
theorem claim5_witness :
    (analyzedOf slOneFrame ≠ [] ∧
      JNum.jfinite slOneFrame.beginning = true ∧
      isOkE (auditCore slOneFrame none encX) = true) ∧
    ((itemsOf (auditCore slOneFrame none encX)).length =
      NUMBER_OF_THUMBNAILS ∧
    strictlyAscending ((itemsOf (auditCore slOneFrame none encX)).map
      Thumbnail.timing)) :=
  ⟨⟨by decide, by decide, by decide⟩,
    claim5_amended slOneFrame encX (by decide) (by decide) (by decide)⟩
